import Mathlib

/-!
A shallow embedding of the redis-from-scratch server core: the RESP codec
(src/resp.rs) and the command dispatcher (src/handler.rs), with theorems
checking the specification's claims against it.

Conventions of the embedding:
* Rust `i64` is `Int` together with explicit range facts where the source
  relies on the machine width.
* Rust `HashMap` is an association list without duplicate keys whose
  iteration order is the list order (the source's iteration order is
  unspecified; claims about iteration are stated up to membership).
* A Rust `panic!` (or an allocation-size panic) is the `none` /
  `.panicked` outcome of the modelled operation.
-/

/-- Rust enum `RespData` (src/resp.rs lines 11-19), the wire-level value.
`integer` carries the source's `i64`. -/
inductive RespData where
  | simpleString : String → RespData
  | error : String → RespData
  | integer : Int → RespData
  | bulkString : String → RespData
  | array : List RespData → RespData
  | null : RespData

/-- Rust enum `RedisValue` (src/handler.rs lines 4-7), a stored value:
a plain string or a field/value hash. -/
inductive RedisValue where
  | string : String → RedisValue
  | hash : List (String × String) → RedisValue

/-- Rust `HashMap::get`: the binding of the key, if any. -/
def alGet {α : Type} (m : List (String × α)) (k : String) : Option α :=
  match m with
  | [] => none
  | (k', v) :: rest => if k' = k then some v else alGet rest k

/-- Rust `HashMap::insert`: replace the key's binding in place, else append. -/
def alInsert {α : Type} (m : List (String × α)) (k : String) (v : α) :
    List (String × α) :=
  match m with
  | [] => [(k, v)]
  | (k', v') :: rest =>
      if k' = k then (k, v) :: rest else (k', v') :: alInsert rest k v

/-- Rust `HashMap::contains_key`. -/
def alContains {α : Type} (m : List (String × α)) (k : String) : Bool :=
  (alGet m k).isSome

/-- The dispatcher's store (`db: HashMap<String, RedisValue>`). -/
abbrev Db := List (String × RedisValue)

namespace Handler

/-- Rust `CommandHandler::ping` (src/handler.rs lines 45-47). -/
def ping (db : Db) : Option (RespData × Db) :=
  some (.simpleString "PONG", db)

/-- Rust `CommandHandler::set` (src/handler.rs lines 49-62): more than 3
elements is a syntax error; any other shape than `[_, bulk, bulk]` is the
arity error; otherwise store the string and answer OK. -/
def set (db : Db) (resp : RespData) : Option (RespData × Db) :=
  match resp with
  | .array arr =>
    if arr.length > 3 then some (.error "syntax error", db)
    else
      match arr with
      | [_, .bulkString key, .bulkString value] =>
          some (.simpleString "OK", alInsert db key (.string value))
      | _ => some (.error "wrong number of arguments for 'set' command", db)
  | _ => some (.error "syntax error", db)

/-- Rust `CommandHandler::get` (src/handler.rs lines 64-83). -/
def get (db : Db) (resp : RespData) : Option (RespData × Db) :=
  match resp with
  | .array arr =>
    if arr.length ≠ 2 then
      some (.error "wrong number of arguments for 'get' command", db)
    else
      match arr with
      | [_, .bulkString key] =>
        match alGet db key with
        | some (.string v) => some (.bulkString v, db)
        | some (.hash _) => some (.null, db)
        | none => some (.null, db)
      | _ => some (.error "syntax error", db)
  | _ => some (.error "syntax error", db)

/-- The `chunks_exact(2)` loop of `CommandHandler::hset` (src/handler.rs
lines 115-131): returns the map after the writes applied so far together
with either the new-field tally or the text of an early error return.
A trailing unpaired element is dropped, as `chunks_exact` drops it. -/
def hsetLoop (m : List (String × String)) (ps : List RespData) (c : Int) :
    List (String × String) × Except String Int :=
  match ps with
  | f :: v :: rest =>
    match f with
    | .bulkString field =>
      match v with
      | .bulkString value =>
          let isNew := !(alContains m field)
          hsetLoop (alInsert m field value) rest (if isNew then c + 1 else c)
      | _ => (m, .error "Invalid value type")
    | _ => (m, .error "Invalid field type")
  | _ => (m, .ok c)

/-- Rust `CommandHandler::hset` (src/handler.rs lines 85-134).  Note that
the source takes `arr[0]` — the command word itself — as the hash key and
`arr[1..]` as the field/value pairs. -/
def hset (db : Db) (resp : RespData) : Option (RespData × Db) :=
  match resp with
  | .array arr =>
    if arr.length < 4 || arr.length % 2 ≠ 0 then
      some (.error "wrong number of arguments for 'hset' command", db)
    else
      match arr with
      | .bulkString hashKey :: pairs =>
        match alGet db hashKey with
        | some (.string _) => some (.error "Key exists but value is not a map", db)
        | some (.hash m) =>
          match hsetLoop m pairs 0 with
          | (m2, .ok c) => some (.integer c, alInsert db hashKey (.hash m2))
          | (m2, .error msg) => some (.error msg, alInsert db hashKey (.hash m2))
        | none =>
          match hsetLoop [] pairs 0 with
          | (m2, .ok c) => some (.integer c, alInsert db hashKey (.hash m2))
          | (m2, .error msg) => some (.error msg, alInsert db hashKey (.hash m2))
      | _ => some (.error "wrong number of arguments for 'hset' command", db)
  | _ => some (.error "wrong number of arguments for 'hset' command", db)

/-- Rust `CommandHandler::hget` (src/handler.rs lines 136-158). -/
def hget (db : Db) (resp : RespData) : Option (RespData × Db) :=
  match resp with
  | .array arr =>
    if arr.length ≠ 3 then
      some (.error "wrong number of arguments for 'hget' command", db)
    else
      match arr with
      | [_, .bulkString hashKey, .bulkString field] =>
        match alGet db hashKey with
        | some (.hash m) =>
          match alGet m field with
          | some v => some (.bulkString v, db)
          | none => some (.null, db)
        | some (.string _) =>
            some (.error "WRONGTYPE Operation against a key holding the wrong kind of value", db)
        | none => some (.null, db)
      | _ => some (.error "wrong number of arguments for 'hget' command", db)
  | _ => some (.error "wrong number of arguments for 'hget' command", db)

/-- The array the source builds in `hgetall`: field, value in iteration
order for every entry of the map. -/
def hashPairs (m : List (String × String)) : List RespData :=
  match m with
  | [] => []
  | (f, v) :: rest => .bulkString f :: .bulkString v :: hashPairs rest

/-- Rust `CommandHandler::hgetall` (src/handler.rs lines 161-188).  The
source `panic!`s when the second element is not a bulk string; the panic is
modelled as `none`. -/
def hgetall (db : Db) (resp : RespData) : Option (RespData × Db) :=
  match resp with
  | .array arr =>
    match arr with
    | _ :: second :: _ =>
      match second with
      | .bulkString hashKey =>
        match alGet db hashKey with
        | some (.hash m) => some (.array (hashPairs m), db)
        | _ => some (.array [], db)
      | _ => none
    | _ => some (.error "wrong number of arguments for 'hgetall' command", db)
  | _ => some (.error "wrong number of arguments for 'hgetall' command", db)

/-- The command-name extraction at the top of `CommandHandler::handle`
(src/handler.rs lines 19-32): a string-like scalar, or the string-like
first element of an array. -/
def cmdOf (resp : RespData) : Option String :=
  match resp with
  | .simpleString s => some s
  | .bulkString s => some s
  | .array arr =>
    match arr with
    | .bulkString s :: _ => some s
    | .simpleString s :: _ => some s
    | _ => none
  | _ => none

/-- Rust `str::to_uppercase` as used on the command word: the ASCII case
mapping.  (Rust's mapping is Unicode-wide, but every comparison in
`handle` is against an ASCII keyword, so only the ASCII mapping of the
candidate word can make a comparison succeed or fail differently, apart
from exotic multi-char expansions outside the claims' scope.) -/
def upperStr (s : String) : String :=
  String.mk (s.data.map Char.toUpper)

/-- Rust `CommandHandler::handle` (src/handler.rs lines 18-43): dispatch on
the upper-cased command name.  `none` models a panic of the dispatched
command. -/
def handle (db : Db) (resp : RespData) : Option (RespData × Db) :=
  match cmdOf resp with
  | none => some (.error "Invalid command", db)
  | some cmd =>
    if upperStr cmd = "PING" then ping db
    else if upperStr cmd = "SET" then set db resp
    else if upperStr cmd = "GET" then get db resp
    else if upperStr cmd = "HSET" then hset db resp
    else if upperStr cmd = "HGET" then hget db resp
    else if upperStr cmd = "HGETALL" then hgetall db resp
    else some (.error "Invalid command", db)

end Handler

namespace Resp

/-- Rust `char::is_whitespace` (the Unicode White_Space property), used by
`str::trim` in `Resp::read_line` and `Resp::read_integer`. -/
def isWs (c : Char) : Bool :=
  c = ' ' || c = '\t' || c = '\n' || c = '\r' ||
  c.val = 0x0B || c.val = 0x0C || c.val = 0x85 || c.val = 0xA0 ||
  c.val = 0x1680 || (0x2000 ≤ c.val && c.val ≤ 0x200A) ||
  c.val = 0x2028 || c.val = 0x2029 || c.val = 0x202F || c.val = 0x205F ||
  c.val = 0x3000

/-- Trailing whitespace removed. -/
def trimRight (l : List Char) : List Char :=
  (l.reverse.dropWhile isWs).reverse

/-- Leading whitespace removed. -/
def trimLeft (l : List Char) : List Char :=
  l.dropWhile isWs

/-- Rust `str::trim`. -/
def trimChars (l : List Char) : List Char :=
  trimLeft (trimRight l)

/-- The bytes `BufRead::read_line` consumes: up to and including the first
newline, or everything when the input has none left. -/
def splitLine (s : List Char) : List Char × List Char :=
  match s with
  | [] => ([], [])
  | c :: rest =>
    if c = '\n' then ([c], rest)
    else
      let (line, rem) := splitLine rest
      (c :: line, rem)

/-- Rust `Resp::read_line` (src/resp.rs lines 114-120): one raw line,
returned trimmed, together with the unconsumed input. -/
def readLine (s : List Char) : List Char × List Char :=
  let (raw, rem) := splitLine s
  (trimChars raw, rem)

/-- One step of decimal accumulation over the characters of a numeral. -/
def parseDigitsAux (l : List Char) (acc : Nat) : Option Nat :=
  match l with
  | [] => some acc
  | c :: rest =>
    if '0' ≤ c ∧ c ≤ '9' then parseDigitsAux rest (acc * 10 + (c.toNat - 48))
    else none

/-- An unsigned decimal numeral: at least one character, all digits. -/
def parseDigits (l : List Char) : Option Nat :=
  if l.isEmpty then none else parseDigitsAux l 0

/-- The bounds of Rust `i64`. -/
def i64Min : Int := -(2 ^ 63)

/-- The upper bound of Rust `i64` (also `isize::MAX` on the 64-bit target). -/
def i64Max : Int := 2 ^ 63 - 1

/-- Rust `str::parse::<i64>` (reached through `Resp::read_integer`,
src/resp.rs lines 122-128): an optional sign, decimal digits, and the value
must fit in `i64`, else the parse fails. -/
def parseI64 (l : List Char) : Option Int :=
  match l with
  | [] => none
  | c :: rest =>
    if c = '+' then
      (parseDigits rest).bind fun n =>
        if (n : Int) ≤ i64Max then some (n : Int) else none
    else if c = '-' then
      (parseDigits rest).bind fun n =>
        if i64Min ≤ -(n : Int) then some (-(n : Int)) else none
    else
      (parseDigits (c :: rest)).bind fun n =>
        if (n : Int) ≤ i64Max then some (n : Int) else none

/-- The digits of `n`, most significant first, prepended to `acc`
(how Rust's integer `to_string` renders a non-negative value).  The first
argument is fuel, always ample when called through `natDigits`. -/
def natDigitsCore : Nat → Nat → List Char → List Char
  | 0, _, acc => acc
  | fuel + 1, n, acc =>
    if n < 10 then Char.ofNat (48 + n) :: acc
    else natDigitsCore fuel (n / 10) (Char.ofNat (48 + n % 10) :: acc)

/-- Rust `usize::to_string` / the non-negative case of `i64::to_string`. -/
def natDigits (n : Nat) : List Char :=
  natDigitsCore (n + 1) n []

/-- Rust `i64::to_string`. -/
def intDigits (n : Int) : List Char :=
  if n < 0 then '-' :: natDigits n.natAbs else natDigits n.toNat

/-- The line terminator `RespData::write` emits. -/
def crlf : List Char := ['\r', '\n']

mutual
/-- Rust `RespData::write` (src/resp.rs lines 22-67) as the produced byte
(character) sequence.  `Error` always injects the `ERR ` tag; `Null` is the
`$-1` bulk-string form; a bulk string declares its UTF-8 byte length. -/
def encode : RespData → List Char
  | .simpleString s => '+' :: s.data ++ crlf
  | .error e => '-' :: ("ERR ".data ++ e.data) ++ crlf
  | .integer n => ':' :: intDigits n ++ crlf
  | .bulkString s => '$' :: natDigits s.utf8ByteSize ++ crlf ++ s.data ++ crlf
  | .array l => '*' :: natDigits l.length ++ crlf ++ encodeList l
  | .null => '$' :: '-' :: '1' :: crlf

/-- The items of an array, encoded in order with no separator. -/
def encodeList : List RespData → List Char
  | [] => []
  | x :: xs => encode x ++ encodeList xs
end

/-- The outcome of one `Resp::read`: a value with the unconsumed input, a
propagated `std::io::Error` from a failed integer parse, or a panic
(`Vec::with_capacity` capacity overflow). -/
inductive ReadOutcome where
  | ok : RespData → List Char → ReadOutcome
  | ioErr : ReadOutcome
  | panicked : ReadOutcome

/-- Rust `num as usize` for `num: i64`: two's-complement reinterpretation. -/
def i64AsUsize (n : Int) : Nat :=
  (n % (2 ^ 64)).toNat

/-- `size_of::<RespData>()` in bytes: the widest payload (a `String` or
`Vec`, three words) plus the discriminant word. -/
def respDataSize : Nat := 32

/-- `Vec::<RespData>::with_capacity` panics with "capacity overflow" when
the requested byte size exceeds `isize::MAX`. -/
def capacityOverflow (cap : Nat) : Bool :=
  decide (cap * respDataSize > 2 ^ 63 - 1)

/-- The `for _ in 0..num` loop of the array branch: decode `n` elements in
sequence with the given one-element decoder, propagating an error or panic
of any element. -/
def readMany (readStep : List Char → Option ReadOutcome) :
    Nat → List Char → List RespData → Option ReadOutcome
  | 0, s, acc => some (.ok (.array acc.reverse) s)
  | n + 1, s, acc =>
    match readStep s with
    | none => none
    | some (.ok v s2) => readMany readStep n s2 (v :: acc)
    | some .ioErr => some .ioErr
    | some .panicked => some .panicked

/-- Rust `Resp::read` (src/resp.rs lines 84-112), with explicit fuel;
`none` means the fuel ran out (a modelling artefact only: any fuel larger
than the nesting depth of the input reproduces the source's behaviour).
The source checks the type tags in the order `+`, `$`, `*`, `:` on the
trimmed line and otherwise answers the `Unknown error` value. -/
def readResp : Nat → List Char → Option ReadOutcome
  | 0, _ => none
  | fuel + 1, s =>
    let p := readLine s
    match p.1 with
    | [] => some (.ok (.error "Unknown error") p.2)
    | c :: restLine =>
      if c = '+' then
        let q := readLine p.2
        some (.ok (.simpleString (String.mk q.1)) q.2)
      else if c = '$' then
        let q := readLine p.2
        some (.ok (.bulkString (String.mk q.1)) q.2)
      else if c = '*' then
        match parseI64 (trimChars restLine) with
        | none => some .ioErr
        | some num =>
          if capacityOverflow (i64AsUsize num) then some .panicked
          else readMany (fun s2 => readResp fuel s2) num.toNat p.2 []
      else if c = ':' then
        match parseI64 (trimChars restLine) with
        | none => some .ioErr
        | some num => some (.ok (.integer num) p.2)
      else some (.ok (.error "Unknown error") p.2)

end Resp

/-! ## Claims about the dispatcher -/

/-- C1: the claimed HSET/HGET interaction evaluated on the code.  Starting
from the empty store, `HSET h f1 v1` answers Integer 1 and a second
`HSET h f1 v2` answers Integer 0 — but the fields are stored in a hash at
the key `"HSET"` (the source reads the hash key from `arr[0]`, the command
word, and the pairs from `arr[1..]`), so `HGET h f1` afterwards answers
Null, not BulkString v2. -/
theorem hset_stores_under_command_word :
    Handler.handle [] (.array [.bulkString "HSET", .bulkString "h",
        .bulkString "f1", .bulkString "v1"])
      = some (.integer 1, [("HSET", .hash [("h", "f1")])]) ∧
    Handler.handle [("HSET", .hash [("h", "f1")])]
        (.array [.bulkString "HSET", .bulkString "h",
          .bulkString "f1", .bulkString "v2"])
      = some (.integer 0, [("HSET", .hash [("h", "f1")])]) ∧
    Handler.handle [("HSET", .hash [("h", "f1")])]
        (.array [.bulkString "HGET", .bulkString "h", .bulkString "f1"])
      = some (.null, [("HSET", .hash [("h", "f1")])]) :=
  ⟨by rfl, by rfl, by rfl⟩

/-- C2: the claimed multi-pair HSET/HGETALL interaction evaluated on the
code.  From the empty store, `HSET h f1 v1 f2 v2` does answer Integer 2,
but what is written is the hash `{h ↦ f1, v1 ↦ f2}` at key `"HSET"` (and
`v2` is dropped by `chunks_exact`), so `HGETALL h` afterwards answers the
empty Array instead of the pairs (f1,v1), (f2,v2). -/
theorem hset_multi_then_hgetall_empty :
    Handler.handle [] (.array [.bulkString "HSET", .bulkString "h",
        .bulkString "f1", .bulkString "v1", .bulkString "f2", .bulkString "v2"])
      = some (.integer 2, [("HSET", .hash [("h", "f1"), ("v1", "f2")])]) ∧
    Handler.handle [("HSET", .hash [("h", "f1"), ("v1", "f2")])]
        (.array [.bulkString "HGETALL", .bulkString "h"])
      = some (.array [], [("HSET", .hash [("h", "f1"), ("v1", "f2")])]) :=
  ⟨by rfl, by rfl⟩

/-- C3, counterexample: a decoded request on which `handle` does not return
a value: `HGETALL` with a non-bulk-string second element reaches the
source's `panic!` (src/handler.rs line 173). -/
theorem handle_hgetall_panic_cex :
    Handler.handle [] (.array [.bulkString "HGETALL", .integer 0]) = none := by
  rfl

/-- C6: `SET` dispatched with 4 total elements answers the generic syntax
error, with 2 total elements the named arity error; the two texts differ
and the store is returned unchanged in both cases. -/
theorem set_arity_vs_syntax_error (db : Db) (a b c : RespData) :
    Handler.handle db (.array [.bulkString "SET", a, b, c])
      = some (.error "syntax error", db) ∧
    Handler.handle db (.array [.bulkString "SET", a])
      = some (.error "wrong number of arguments for 'set' command", db) ∧
    ("syntax error" : String) ≠ "wrong number of arguments for 'set' command" :=
  ⟨by rfl, by cases a <;> rfl, by decide⟩

/-- C7: `GET k` answers Null for an absent key, the stored string for a
string key, and Null (not an error) for a hash key; the store is
unchanged. -/
theorem get_semantics (db : Db) (k : String) :
    Handler.handle db (.array [.bulkString "GET", .bulkString k]) =
      some ((match alGet db k with
             | some (.string v) => RespData.bulkString v
             | some (.hash _) => .null
             | none => .null), db) := by
  have e : Handler.handle db (.array [.bulkString "GET", .bulkString k]) =
      (match alGet db k with
       | some (.string v) => some (RespData.bulkString v, db)
       | some (.hash _) => some (.null, db)
       | none => some (.null, db)) := by rfl
  rw [e]
  cases alGet db k with
  | none => rfl
  | some v => cases v <;> rfl

/-- C8: `HGET k f` answers Null for an absent key, the WRONGTYPE error for
a string key, and, for a hash key, Null for an absent field and the
field's value for a present one. -/
theorem hget_semantics (db : Db) (k fld : String) :
    Handler.handle db (.array [.bulkString "HGET", .bulkString k, .bulkString fld]) =
      some ((match alGet db k with
             | some (.hash m) =>
               (match alGet m fld with
                | some v => RespData.bulkString v
                | none => .null)
             | some (.string _) =>
                 .error "WRONGTYPE Operation against a key holding the wrong kind of value"
             | none => .null), db) := by
  have e : Handler.handle db
        (.array [.bulkString "HGET", .bulkString k, .bulkString fld]) =
      (match alGet db k with
       | some (.hash m) =>
         (match alGet m fld with
          | some v => some (RespData.bulkString v, db)
          | none => some (.null, db))
       | some (.string _) =>
           some (.error "WRONGTYPE Operation against a key holding the wrong kind of value", db)
       | none => some (.null, db)) := by rfl
  rw [e]
  cases alGet db k with
  | none => rfl
  | some v =>
    cases v with
    | string s => rfl
    | hash m =>
      dsimp only
      cases alGet m fld <;> rfl

/-- C9: `HGETALL k` answers the empty Array — not Null and not an Error —
whenever `k` is absent or holds a string value. -/
theorem hgetall_absent_or_string_empty (db : Db) (k : String)
    (h : alGet db k = none ∨ ∃ s, alGet db k = some (.string s)) :
    Handler.handle db (.array [.bulkString "HGETALL", .bulkString k])
      = some (.array [], db) := by
  have e : Handler.handle db (.array [.bulkString "HGETALL", .bulkString k]) =
      (match alGet db k with
       | some (.hash m) => some (.array (Handler.hashPairs m), db)
       | _ => some (.array [], db)) := by rfl
  rw [e]
  rcases h with h | ⟨s, h⟩ <;> rw [h]

/-- C9, witness: the theorem applied to the empty store. -/
theorem hgetall_absent_or_string_empty_witness :
    Handler.handle [] (.array [.bulkString "HGETALL", .bulkString "k"])
      = some (.array [], []) :=
  hgetall_absent_or_string_empty [] "k" (Or.inl (by rfl))

/-! ## Totality and frame lemmas for the dispatcher -/

/-- `set` answers on every input (no panic in its source). -/
theorem set_ne_none (db : Db) (resp : RespData) : Handler.set db resp ≠ none := by
  unfold Handler.set
  split
  · split
    · simp
    · split <;> simp
  · simp

/-- `get` answers on every input. -/
theorem get_ne_none (db : Db) (resp : RespData) : Handler.get db resp ≠ none := by
  unfold Handler.get
  split
  · split
    · simp
    · split
      · split <;> simp
      · simp
  · simp

/-- `hset` answers on every input. -/
theorem hset_ne_none (db : Db) (resp : RespData) : Handler.hset db resp ≠ none := by
  unfold Handler.hset
  split
  · split
    · simp
    · split
      · split
        · simp
        · split <;> simp
        · split <;> simp
      · simp
  · simp

/-- `hget` answers on every input. -/
theorem hget_ne_none (db : Db) (resp : RespData) : Handler.hget db resp ≠ none := by
  unfold Handler.hget
  split
  · split
    · simp
    · split
      · split
        · split <;> simp
        · simp
        · simp
      · simp
  · simp

/-- The only way `hgetall` fails to answer is the source's `panic!`: an
array of at least two elements whose second is not a bulk string. -/
theorem hgetall_none_elim (db : Db) (resp : RespData)
    (h : Handler.hgetall db resp = none) :
    ∃ a x t, resp = .array (a :: x :: t) ∧ ∀ s, x ≠ RespData.bulkString s := by
  cases resp with
  | array arr =>
    cases arr with
    | nil => simp [Handler.hgetall] at h
    | cons a rest =>
      cases rest with
      | nil => simp [Handler.hgetall] at h
      | cons x t =>
        refine ⟨a, x, t, rfl, ?_⟩
        intro s hx
        subst hx
        have e : Handler.hgetall db (.array (a :: .bulkString s :: t)) =
            (match alGet db s with
             | some (.hash m) => some (.array (Handler.hashPairs m), db)
             | _ => some (.array [], db)) := by rfl
        rw [e] at h
        revert h
        cases alGet db s with
        | none => simp
        | some v => cases v <;> simp
  | simpleString s => simp [Handler.hgetall] at h
  | error s => simp [Handler.hgetall] at h
  | integer n => simp [Handler.hgetall] at h
  | bulkString s => simp [Handler.hgetall] at h
  | null => simp [Handler.hgetall] at h

/-- `get` never changes the store. -/
theorem get_db_const (db : Db) (resp : RespData) (r : RespData) (db2 : Db)
    (h : Handler.get db resp = some (r, db2)) : db2 = db := by
  unfold Handler.get at h
  split at h
  · split at h
    · simp only [Option.some.injEq, Prod.mk.injEq] at h
      exact h.2.symm
    · split at h
      · split at h <;>
          (simp only [Option.some.injEq, Prod.mk.injEq] at h; exact h.2.symm)
      · simp only [Option.some.injEq, Prod.mk.injEq] at h
        exact h.2.symm
  · simp only [Option.some.injEq, Prod.mk.injEq] at h
    exact h.2.symm

/-- `hget` never changes the store. -/
theorem hget_db_const (db : Db) (resp : RespData) (r : RespData) (db2 : Db)
    (h : Handler.hget db resp = some (r, db2)) : db2 = db := by
  unfold Handler.hget at h
  split at h
  · split at h
    · simp only [Option.some.injEq, Prod.mk.injEq] at h
      exact h.2.symm
    · split at h
      · split at h
        · split at h <;>
            (simp only [Option.some.injEq, Prod.mk.injEq] at h; exact h.2.symm)
        · simp only [Option.some.injEq, Prod.mk.injEq] at h
          exact h.2.symm
        · simp only [Option.some.injEq, Prod.mk.injEq] at h
          exact h.2.symm
      · simp only [Option.some.injEq, Prod.mk.injEq] at h
        exact h.2.symm
  · simp only [Option.some.injEq, Prod.mk.injEq] at h
    exact h.2.symm

/-- `hgetall` never changes the store (when it answers at all). -/
theorem hgetall_db_const (db : Db) (resp : RespData) (r : RespData) (db2 : Db)
    (h : Handler.hgetall db resp = some (r, db2)) : db2 = db := by
  unfold Handler.hgetall at h
  split at h
  · split at h
    · split at h
      · split at h <;>
          (simp only [Option.some.injEq, Prod.mk.injEq] at h; exact h.2.symm)
      · simp at h
    · simp only [Option.some.injEq, Prod.mk.injEq] at h
      exact h.2.symm
  · simp only [Option.some.injEq, Prod.mk.injEq] at h
    exact h.2.symm

/-- When `set` answers an Error value, the store is unchanged (the only
mutating branch answers OK). -/
theorem set_error_db_const (db : Db) (resp : RespData) (e : String) (db2 : Db)
    (h : Handler.set db resp = some (.error e, db2)) : db2 = db := by
  unfold Handler.set at h
  split at h
  · split at h
    · simp only [Option.some.injEq, Prod.mk.injEq] at h
      exact h.2.symm
    · split at h
      · simp at h
      · simp only [Option.some.injEq, Prod.mk.injEq] at h
        exact h.2.symm
  · simp only [Option.some.injEq, Prod.mk.injEq] at h
    exact h.2.symm

/-- C3, amended: `handle` answers a Protocol Value for every decoded
request and store, except exactly when the dispatched command word
upper-cases to `HGETALL` and the request array has a second element that
is not a BulkString — there the source panics. -/
theorem handle_none_iff_hgetall_panic (db : Db) (resp : RespData) :
    Handler.handle db resp = none ↔
      (∃ c, Handler.cmdOf resp = some c ∧ Handler.upperStr c = "HGETALL") ∧
      ∃ a x t, resp = .array (a :: x :: t) ∧ ∀ s, x ≠ RespData.bulkString s := by
  constructor
  · intro h
    unfold Handler.handle at h
    cases hcm : Handler.cmdOf resp with
    | none => rw [hcm] at h; simp at h
    | some c =>
      rw [hcm] at h
      dsimp only at h
      split_ifs at h with h1 h2 h3 h4 h5 h6
      · simp [Handler.ping] at h
      · exact absurd h (set_ne_none db resp)
      · exact absurd h (get_ne_none db resp)
      · exact absurd h (hset_ne_none db resp)
      · exact absurd h (hget_ne_none db resp)
      · exact ⟨⟨c, rfl, h6⟩, hgetall_none_elim db resp h⟩
  · rintro ⟨⟨c, hcm, hu⟩, a, x, t, hresp, hx⟩
    subst hresp
    unfold Handler.handle
    rw [hcm]
    dsimp only
    rw [hu]
    rw [if_neg (by decide), if_neg (by decide), if_neg (by decide),
      if_neg (by decide), if_neg (by decide), if_pos rfl]
    cases x with
    | bulkString s => exact absurd rfl (hx s)
    | simpleString s => rfl
    | error s => rfl
    | integer n => rfl
    | array l => rfl
    | null => rfl

/-- C10: whenever `handle` answers an Error value and the dispatched
command word is not `HSET`, the store is returned unchanged. -/
theorem handle_error_db_const (db : Db) (resp : RespData) (e : String) (db2 : Db)
    (h : Handler.handle db resp = some (.error e, db2))
    (hns : ∀ c, Handler.cmdOf resp = some c → Handler.upperStr c ≠ "HSET") :
    db2 = db := by
  unfold Handler.handle at h
  cases hcm : Handler.cmdOf resp with
  | none =>
    rw [hcm] at h
    dsimp only at h
    simp only [Option.some.injEq, Prod.mk.injEq] at h
    exact h.2.symm
  | some c =>
    rw [hcm] at h
    dsimp only at h
    split_ifs at h with h1 h2 h3 h4 h5 h6
    · simp [Handler.ping] at h
    · exact set_error_db_const db resp e db2 h
    · exact get_db_const db resp (.error e) db2 h
    · exact absurd h4 (hns c hcm)
    · exact hget_db_const db resp (.error e) db2 h
    · exact hgetall_db_const db resp (.error e) db2 h
    · simp only [Option.some.injEq, Prod.mk.injEq] at h
      exact h.2.symm

/-- C10, witness: a failed `GET` on a one-key store leaves it unchanged. -/
theorem handle_error_db_const_witness :
    ([("k", RedisValue.string "v")] : Db) = [("k", RedisValue.string "v")] :=
  handle_error_db_const [("k", RedisValue.string "v")]
    (.array [.bulkString "GET"])
    "wrong number of arguments for 'get' command"
    [("k", RedisValue.string "v")]
    (by rfl)
    (by intro c hc hu; rw [show c = "GET" from Option.some.inj hc.symm] at hu; exact absurd hu (by decide))

/-! ## Line and numeral lemmas for the codec -/

namespace Resp

theorem dropWhile_eq_self_of_all {p : Char → Bool} {l : List Char}
    (h : ∀ c ∈ l, p c = false) : l.dropWhile p = l := by
  induction l with
  | nil => rfl
  | cons c cs _ =>
    have hc : ¬p c = true := by simp [h c (List.mem_cons_self c cs)]
    rw [List.dropWhile_cons_of_neg hc]

theorem dropWhile_append_last {p : Char → Bool} {a : Char} (l : List Char)
    (ha : p a = false) : (l ++ [a]).dropWhile p = l.dropWhile p ++ [a] := by
  have hna : ¬p a = true := by simp [ha]
  rw [List.dropWhile_append]
  by_cases he : (l.dropWhile p).isEmpty
  · rw [if_pos he, List.dropWhile_cons_of_neg hna]
    have h0 : l.dropWhile p = [] := by
      cases hl : l.dropWhile p with
      | nil => rfl
      | cons x xs => rw [hl] at he; simp at he
    rw [h0]
    rfl
  · rw [if_neg he]

theorem trimRight_cons_nonws {c : Char} (l : List Char) (h : isWs c = false) :
    trimRight (c :: l) = c :: trimRight l := by
  unfold trimRight
  rw [List.reverse_cons, dropWhile_append_last _ h, List.reverse_append]
  rfl

theorem trimRight_append_crlf (l : List Char) :
    trimRight (l ++ ['\r', '\n']) = trimRight l := by
  unfold trimRight
  rw [List.reverse_append]
  rw [show (['\r', '\n'] : List Char).reverse = ['\n', '\r'] from rfl]
  rw [List.cons_append, List.cons_append, List.nil_append,
    List.dropWhile_cons_of_pos (by decide), List.dropWhile_cons_of_pos (by decide)]

theorem trimRight_idem (l : List Char) : trimRight (trimRight l) = trimRight l := by
  unfold trimRight
  rw [List.reverse_reverse, List.dropWhile_idempotent]

theorem trimChars_of_all_nonws {l : List Char} (h : ∀ c ∈ l, isWs c = false) :
    trimChars l = l := by
  unfold trimChars trimRight trimLeft
  rw [dropWhile_eq_self_of_all fun c hc => h c (List.mem_reverse.mp hc),
    List.reverse_reverse, dropWhile_eq_self_of_all h]

theorem trimChars_cons_nonws {c : Char} (l : List Char) (h : isWs c = false) :
    trimChars (c :: l) = c :: trimRight l := by
  unfold trimChars
  rw [trimRight_cons_nonws l h]
  unfold trimLeft
  rw [List.dropWhile_cons_of_neg (by simp [h])]

theorem trimChars_trimRight (l : List Char) :
    trimChars (trimRight l) = trimChars l := by
  unfold trimChars
  rw [trimRight_idem]

theorem splitLine_append {pre : List Char} (rest : List Char)
    (h : '\n' ∉ pre) : splitLine (pre ++ '\n' :: rest) = (pre ++ ['\n'], rest) := by
  induction pre with
  | nil => simp [splitLine]
  | cons c cs ih =>
    have hc : c ≠ '\n' := fun he => h (he ▸ List.mem_cons_self c cs)
    rw [List.cons_append, splitLine, if_neg hc,
      ih fun hm => h (List.mem_cons_of_mem c hm)]
    rfl

theorem readLine_crlf {pre : List Char} (rest : List Char) (h : '\n' ∉ pre) :
    readLine (pre ++ '\r' :: '\n' :: rest) = (trimChars pre, rest) := by
  have h2 : '\n' ∉ pre ++ ['\r'] := by
    intro hm
    rcases List.mem_append.mp hm with hm | hm
    · exact h hm
    · simp at hm
  rw [show pre ++ '\r' :: '\n' :: rest = (pre ++ ['\r']) ++ '\n' :: rest by simp]
  unfold readLine
  rw [splitLine_append rest h2]
  dsimp only
  rw [show (pre ++ ['\r']) ++ ['\n'] = pre ++ ['\r', '\n'] by simp]
  unfold trimChars
  rw [trimRight_append_crlf]

/-- The facts about a decimal digit character that the codec proofs use. -/
theorem digitCharFacts {d : Nat} (h : d < 10) :
    isWs (Char.ofNat (48 + d)) = false ∧ Char.ofNat (48 + d) ≠ '\n' ∧
    Char.ofNat (48 + d) ≠ '+' ∧ Char.ofNat (48 + d) ≠ '-' ∧
    ('0' ≤ Char.ofNat (48 + d) ∧ Char.ofNat (48 + d) ≤ '9') ∧
    (Char.ofNat (48 + d)).toNat = 48 + d := by
  interval_cases d <;> exact ⟨by decide, by decide, by decide, by decide,
    ⟨by decide, by decide⟩, by decide⟩

theorem natDigitsCore_mem {fuel n : Nat} {acc : List Char} {c : Char}
    (h : c ∈ natDigitsCore fuel n acc) :
    (∃ d, d < 10 ∧ c = Char.ofNat (48 + d)) ∨ c ∈ acc := by
  induction fuel generalizing n acc with
  | zero => exact Or.inr h
  | succ f ih =>
    rw [natDigitsCore] at h
    split at h
    · rcases List.mem_cons.mp h with hc | hc
      · exact Or.inl ⟨n, by omega, hc⟩
      · exact Or.inr hc
    · rcases ih h with hd | hc
      · exact Or.inl hd
      · rcases List.mem_cons.mp hc with hc | hc
        · exact Or.inl ⟨n % 10, by omega, hc⟩
        · exact Or.inr hc

theorem natDigitsCore_ne_nil (fuel n : Nat) (acc : List Char) :
    natDigitsCore (fuel + 1) n acc ≠ [] := by
  induction fuel generalizing n acc with
  | zero =>
    rw [natDigitsCore]
    split
    · simp
    · rw [natDigitsCore]; simp
  | succ f ih =>
    rw [natDigitsCore]
    split
    · simp
    · exact ih (n / 10) _

/-- The number of digits `natDigitsCore` emits, with the same fuel
discipline. -/
def numDigitsCore : Nat → Nat → Nat
  | 0, _ => 0
  | fuel + 1, n => if n < 10 then 1 else numDigitsCore fuel (n / 10) + 1

theorem natDigitsCore_parse {fuel n : Nat} (acc : List Char) (a : Nat)
    (hf : n < fuel) :
    parseDigitsAux (natDigitsCore fuel n acc) a =
      parseDigitsAux acc (a * 10 ^ numDigitsCore fuel n + n) := by
  induction fuel generalizing n acc a with
  | zero => omega
  | succ f ih =>
    rw [natDigitsCore, numDigitsCore]
    split
    · rename_i hn
      obtain ⟨_, _, _, _, ⟨hd0, hd9⟩, htn⟩ := digitCharFacts hn
      rw [parseDigitsAux, if_pos ⟨hd0, hd9⟩, htn]
      congr 1
      omega
    · rename_i hn
      have h10 : 10 ≤ n := by omega
      have hrec : n / 10 < f := by
        have := Nat.div_lt_self (by omega : 0 < n) (by omega : 1 < 10)
        omega
      rw [ih _ _ hrec]
      obtain ⟨_, _, _, _, ⟨hd0, hd9⟩, htn⟩ := digitCharFacts (Nat.mod_lt n (by omega) : n % 10 < 10)
      rw [parseDigitsAux, if_pos ⟨hd0, hd9⟩, htn]
      congr 1
      have hdm : 10 * (n / 10) + n % 10 = n := Nat.div_add_mod n 10
      have hp : 10 ^ (numDigitsCore f (n / 10) + 1) = 10 ^ numDigitsCore f (n / 10) * 10 := by
        rw [pow_succ]
      rw [hp]
      ring_nf
      omega

theorem natDigits_parse (n : Nat) : parseDigits (natDigits n) = some n := by
  unfold parseDigits natDigits
  rw [if_neg (by simpa [List.isEmpty_iff] using natDigitsCore_ne_nil n n [])]
  rw [natDigitsCore_parse [] 0 (Nat.lt_succ_self n)]
  simp [parseDigitsAux]

theorem natDigits_mem_digit {n : Nat} {c : Char} (h : c ∈ natDigits n) :
    ∃ d, d < 10 ∧ c = Char.ofNat (48 + d) := by
  rcases natDigitsCore_mem h with hd | hc
  · exact hd
  · simp at hc

theorem natDigits_nonws (n : Nat) :
    ∀ c ∈ natDigits n, isWs c = false ∧ c ≠ '\n' := by
  intro c hc
  obtain ⟨d, hd, rfl⟩ := natDigits_mem_digit hc
  obtain ⟨h1, h2, _⟩ := digitCharFacts hd
  exact ⟨h1, h2⟩

theorem intDigits_nonws (n : Int) :
    ∀ c ∈ intDigits n, isWs c = false ∧ c ≠ '\n' := by
  intro c hc
  unfold intDigits at hc
  split at hc
  · rcases List.mem_cons.mp hc with rfl | hc
    · exact ⟨by decide, by decide⟩
    · exact natDigits_nonws _ c hc
  · exact natDigits_nonws _ c hc

theorem parseI64_natDigits {n : Nat} (h : (n : Int) ≤ i64Max) :
    parseI64 (natDigits n) = some (n : Int) := by
  cases hd : natDigits n with
  | nil => exact absurd hd (natDigitsCore_ne_nil n n [])
  | cons c cs =>
    obtain ⟨d, hdlt, hc⟩ := natDigits_mem_digit (hd ▸ List.mem_cons_self c cs)
    obtain ⟨_, _, hplus, hminus, _, _⟩ := digitCharFacts hdlt
    rw [parseI64, if_neg (hc ▸ hplus), if_neg (hc ▸ hminus), ← hd, natDigits_parse]
    simp [h]

theorem parseI64_intDigits {n : Int} (h1 : i64Min ≤ n) (h2 : n ≤ i64Max) :
    parseI64 (intDigits n) = some n := by
  unfold intDigits
  split
  · rename_i hneg
    rw [parseI64, if_neg (by decide), if_pos rfl, natDigits_parse]
    have habs : ((n.natAbs : Nat) : Int) = -n := by omega
    show (if i64Min ≤ -((n.natAbs : Nat) : Int) then some (-((n.natAbs : Nat) : Int))
          else none) = some n
    rw [habs, neg_neg, if_pos h1]
  · rename_i hnonneg
    have hle : ((n.toNat : Nat) : Int) ≤ i64Max := by
      have h2' : n ≤ 2 ^ 63 - 1 := h2
      show ((n.toNat : Nat) : Int) ≤ 2 ^ 63 - 1
      omega
    rw [parseI64_natDigits hle]
    have : ((n.toNat : Nat) : Int) = n := by omega
    rw [this]

theorem parseI64_range {l : List Char} {num : Int} (h : parseI64 l = some num) :
    -(2 ^ 63) ≤ num ∧ num ≤ 2 ^ 63 - 1 := by
  have aux : ∀ (ds : List Char),
      ((parseDigits ds).bind fun n =>
        if (n : Int) ≤ i64Max then some (n : Int) else none) = some num →
      -(2 ^ 63) ≤ num ∧ num ≤ 2 ^ 63 - 1 := by
    intro ds hb
    cases hp : parseDigits ds with
    | none => rw [hp] at hb; simp at hb
    | some m =>
      rw [hp] at hb
      have hb' : (if (m : Int) ≤ i64Max then some (m : Int) else none) = some num := hb
      split_ifs at hb' with hle
      · obtain rfl : (m : Int) = num := Option.some.inj hb'
        have hle' : (m : Int) ≤ 2 ^ 63 - 1 := hle
        constructor <;> omega
  cases l with
  | nil => simp [parseI64] at h
  | cons c rest =>
    rw [parseI64] at h
    split_ifs at h with h1 h2
    · exact aux rest h
    · cases hp : parseDigits rest with
      | none => rw [hp] at h; simp at h
      | some m =>
        rw [hp] at h
        have hb' : (if i64Min ≤ -((m : Nat) : Int) then some (-((m : Nat) : Int))
            else none) = some num := h
        split_ifs at hb' with hle
        · obtain rfl : -((m : Nat) : Int) = num := Option.some.inj hb'
          have hle' : -(2 ^ 63) ≤ -((m : Nat) : Int) := hle
          constructor <;> omega
    · exact aux (c :: rest) h

theorem capacityOverflow_of_neg {num : Int} (h1 : -(2 ^ 63) ≤ num) (h2 : num < 0) :
    capacityOverflow (i64AsUsize num) = true := by
  unfold capacityOverflow i64AsUsize respDataSize
  rw [decide_eq_true_eq]
  omega

theorem capacityOverflow_small {cap : Nat} (h : cap * 32 ≤ 2 ^ 63 - 1) :
    capacityOverflow cap = false := by
  unfold capacityOverflow respDataSize
  simp only [decide_eq_false_iff_not]
  omega

theorem i64AsUsize_ofNat {len : Nat} (h : len < 2 ^ 63) :
    i64AsUsize (len : Int) = len := by
  unfold i64AsUsize
  omega

/-- `Resp::read` at positive fuel, written with the line reads exposed. -/
theorem readResp_succ (fuel : Nat) (s : List Char) :
    readResp (fuel + 1) s =
      (match (readLine s).1 with
       | [] => some (.ok (.error "Unknown error") (readLine s).2)
       | c :: restLine =>
         if c = '+' then
           some (.ok (.simpleString (String.mk (readLine (readLine s).2).1))
             (readLine (readLine s).2).2)
         else if c = '$' then
           some (.ok (.bulkString (String.mk (readLine (readLine s).2).1))
             (readLine (readLine s).2).2)
         else if c = '*' then
           match parseI64 (trimChars restLine) with
           | none => some .ioErr
           | some num =>
             if capacityOverflow (i64AsUsize num) then some .panicked
             else readMany (fun s2 => readResp fuel s2) num.toNat (readLine s).2 []
         else if c = ':' then
           match parseI64 (trimChars restLine) with
           | none => some .ioErr
           | some num => some (.ok (.integer num) (readLine s).2)
         else some (.ok (.error "Unknown error") (readLine s).2)) := by
  rfl

/-! ## Claims about the decoder's array count -/

/-- C5, counterexample: a negative array count parses fine and then panics
in `Vec::with_capacity` (`-1 as usize` exceeds `isize::MAX` bytes), rather
than failing with a decode error. -/
theorem array_negative_count_panics_cex :
    readResp 1 ('*' :: '-' :: '1' :: '\r' :: '\n' :: []) = some .panicked := by
  rfl

/-- C5, amended: for an array header line `*N` (with no embedded newline in
the count text): a non-numeric count is an I/O-level decode error; a
negative count panics with a capacity overflow instead of erroring; a count
of 0 decodes to the empty Array, consuming exactly the header line. -/
theorem array_count_decode (f : Nat) (l rest : List Char) (hnl : '\n' ∉ l) :
    (parseI64 (trimChars l) = none →
      readResp (f + 1) ('*' :: l ++ '\r' :: '\n' :: rest) = some .ioErr) ∧
    (∀ num : Int, parseI64 (trimChars l) = some num → num < 0 →
      readResp (f + 1) ('*' :: l ++ '\r' :: '\n' :: rest) = some .panicked) ∧
    (parseI64 (trimChars l) = some 0 →
      readResp (f + 1) ('*' :: l ++ '\r' :: '\n' :: rest)
        = some (.ok (.array []) rest)) := by
  have hpre : ('\n' : Char) ∉ '*' :: l := by
    intro hm
    rcases List.mem_cons.mp hm with h | h
    · exact absurd h (by decide)
    · exact hnl h
  have hline : readLine (('*' :: l) ++ '\r' :: '\n' :: rest)
      = ('*' :: trimRight l, rest) := by
    rw [readLine_crlf rest hpre, trimChars_cons_nonws l (by decide)]
  refine ⟨?_, ?_, ?_⟩
  · intro hp
    rw [readResp_succ, hline]
    dsimp only
    rw [if_neg (by decide), if_neg (by decide), if_pos rfl,
      trimChars_trimRight, hp]
  · intro num hp hneg
    rw [readResp_succ, hline]
    dsimp only
    rw [if_neg (by decide), if_neg (by decide), if_pos rfl,
      trimChars_trimRight, hp]
    dsimp only
    rw [if_pos (capacityOverflow_of_neg (parseI64_range hp).1 hneg)]
  · intro hp
    rw [readResp_succ, hline]
    dsimp only
    rw [if_neg (by decide), if_neg (by decide), if_pos rfl,
      trimChars_trimRight, hp]
    dsimp only
    rw [if_neg (by decide)]
    rfl

/-- C5, witness: the amended theorem applied to the concrete headers `*x`
(non-numeric), `*-2` (negative) and `*0` (zero). -/
theorem array_count_decode_witness :
    readResp 1 ('*' :: 'x' :: '\r' :: '\n' :: []) = some .ioErr ∧
    readResp 1 ('*' :: '-' :: '2' :: '\r' :: '\n' :: []) = some .panicked ∧
    readResp 1 ('*' :: '0' :: '\r' :: '\n' :: []) = some (.ok (.array []) []) :=
  ⟨(array_count_decode 0 ['x'] [] (by decide)).1 (by rfl),
   (array_count_decode 0 ['-', '2'] [] (by decide)).2.1 (-2) (by rfl) (by decide),
   (array_count_decode 0 ['0'] [] (by decide)).2.2 (by rfl)⟩

/-! ## The encode/decode round trip -/

mutual
/-- The values whose wire encoding the source's decoder reads back exactly:
integers (in the `i64` range the source's type enforces), bulk strings
whose text has no embedded newline and no leading or trailing whitespace
(the decoder re-reads the payload as a trimmed line), and arrays of such
values small enough that the decoder's `Vec::with_capacity` does not
overflow (any materialised Rust `Vec` satisfies that bound). -/
def cleanVal : RespData → Bool
  | .integer n => decide (-(2 ^ 63) ≤ n ∧ n ≤ 2 ^ 63 - 1)
  | .bulkString s => decide ('\n' ∉ s.data) && decide (trimChars s.data = s.data)
  | .array l => cleanList l && decide (l.length * respDataSize ≤ 2 ^ 63 - 1)
  | _ => false

/-- `cleanVal` on every element of a list. -/
def cleanList : List RespData → Bool
  | [] => true
  | x :: xs => cleanVal x && cleanList xs
end

mutual
/-- Array-nesting depth of a value, the fuel the decoder model needs. -/
def respDepth : RespData → Nat
  | .array l => respListDepth l + 1
  | _ => 0

/-- The largest `respDepth` in a list. -/
def respListDepth : List RespData → Nat
  | [] => 0
  | x :: xs => max (respDepth x) (respListDepth xs)
end

theorem cleanList_mem {l : List RespData} {x : RespData}
    (h : cleanList l = true) (hx : x ∈ l) : cleanVal x = true := by
  induction l with
  | nil => simp at hx
  | cons y ys ih =>
    rw [cleanList, Bool.and_eq_true] at h
    rcases List.mem_cons.mp hx with rfl | hx
    · exact h.1
    · exact ih h.2 hx

theorem respListDepth_mem {l : List RespData} {x : RespData} (hx : x ∈ l) :
    respDepth x ≤ respListDepth l := by
  induction l with
  | nil => simp at hx
  | cons y ys ih =>
    rw [respListDepth]
    rcases List.mem_cons.mp hx with rfl | hx
    · exact le_max_left _ _
    · exact le_trans (ih hx) (le_max_right _ _)

theorem readMany_encodeList (f : Nat) (l : List RespData)
    (hstep : ∀ x ∈ l, ∀ rest2 : List Char,
      readResp f (encode x ++ rest2) = some (.ok x rest2)) :
    ∀ (acc : List RespData) (rest : List Char),
      readMany (fun s2 => readResp f s2) l.length (encodeList l ++ rest) acc
        = some (.ok (.array (acc.reverse ++ l)) rest) := by
  induction l with
  | nil =>
    intro acc rest
    rw [show encodeList [] ++ rest = rest from rfl,
      show (([] : List RespData)).length = 0 from rfl, readMany]
    simp
  | cons x xs ih =>
    intro acc rest
    have hx := hstep x (List.mem_cons_self x xs) (encodeList xs ++ rest)
    have hs : encodeList (x :: xs) ++ rest = encode x ++ (encodeList xs ++ rest) := by
      rw [show encodeList (x :: xs) = encode x ++ encodeList xs from rfl,
        List.append_assoc]
    rw [hs, show (x :: xs).length = xs.length + 1 from rfl, readMany, hx]
    dsimp only
    rw [ih (fun y hy r => hstep y (List.mem_cons_of_mem x hy) r) (x :: acc) rest]
    simp

/-- C4, amended: for Integer values, for BulkString values whose text has
no newline and no leading/trailing whitespace, and for (arbitrarily
nested) Arrays of such values, encode followed by decode yields exactly
the original value and consumes exactly its bytes.  (SimpleString, Error
and Null values do not round-trip — see the counterexample.) -/
theorem encode_roundtrip_clean (fuel : Nat) (v : RespData) (rest : List Char)
    (hc : cleanVal v = true) (hd : respDepth v < fuel) :
    readResp fuel (encode v ++ rest) = some (.ok v rest) := by
  induction fuel generalizing v rest with
  | zero => exact absurd hd (Nat.not_lt_zero _)
  | succ f ih =>
    cases v with
    | simpleString s => simp [cleanVal] at hc
    | error e => simp [cleanVal] at hc
    | null => simp [cleanVal] at hc
    | integer n =>
      rw [cleanVal, decide_eq_true_eq] at hc
      have hall : ∀ c ∈ ':' :: intDigits n, isWs c = false := by
        intro c hcm
        rcases List.mem_cons.mp hcm with rfl | hcm
        · decide
        · exact (intDigits_nonws n c hcm).1
      have hnlh : ('\n' : Char) ∉ ':' :: intDigits n := by
        intro hm
        rcases List.mem_cons.mp hm with hm | hm
        · exact absurd hm (by decide)
        · exact (intDigits_nonws n '\n' hm).2 rfl
      have hs : encode (.integer n) ++ rest
          = (':' :: intDigits n) ++ '\r' :: '\n' :: rest := by
        rw [show encode (.integer n) = (':' :: intDigits n) ++ crlf from rfl,
          List.append_assoc]
        rfl
      have hline : readLine ((':' :: intDigits n) ++ '\r' :: '\n' :: rest)
          = (':' :: intDigits n, rest) := by
        rw [readLine_crlf rest hnlh, trimChars_of_all_nonws hall]
      rw [hs, readResp_succ, hline]
      dsimp only
      rw [if_neg (by decide), if_neg (by decide), if_neg (by decide), if_pos rfl,
        trimChars_of_all_nonws (fun c hcm => (intDigits_nonws n c hcm).1),
        parseI64_intDigits hc.1 hc.2]
    | bulkString s =>
      rw [cleanVal, Bool.and_eq_true, decide_eq_true_eq, decide_eq_true_eq] at hc
      have hall : ∀ c ∈ '$' :: natDigits s.utf8ByteSize, isWs c = false := by
        intro c hcm
        rcases List.mem_cons.mp hcm with rfl | hcm
        · decide
        · exact (natDigits_nonws _ c hcm).1
      have hnlh : ('\n' : Char) ∉ '$' :: natDigits s.utf8ByteSize := by
        intro hm
        rcases List.mem_cons.mp hm with hm | hm
        · exact absurd hm (by decide)
        · exact (natDigits_nonws _ '\n' hm).2 rfl
      have hs : encode (.bulkString s) ++ rest
          = ('$' :: natDigits s.utf8ByteSize)
            ++ '\r' :: '\n' :: (s.data ++ '\r' :: '\n' :: rest) := by
        rw [show encode (.bulkString s)
            = (('$' :: natDigits s.utf8ByteSize) ++ crlf ++ s.data) ++ crlf from rfl,
          List.append_assoc, List.append_assoc, List.append_assoc]
        rfl
      have hline : readLine (('$' :: natDigits s.utf8ByteSize)
            ++ '\r' :: '\n' :: (s.data ++ '\r' :: '\n' :: rest))
          = ('$' :: natDigits s.utf8ByteSize, s.data ++ '\r' :: '\n' :: rest) := by
        rw [readLine_crlf _ hnlh, trimChars_of_all_nonws hall]
      have hline2 : readLine (s.data ++ '\r' :: '\n' :: rest) = (s.data, rest) := by
        rw [readLine_crlf rest hc.1, hc.2]
      rw [hs, readResp_succ, hline]
      dsimp only
      rw [if_neg (by decide), if_pos rfl, hline2]
    | array l =>
      rw [cleanVal, Bool.and_eq_true, decide_eq_true_eq] at hc
      have hb2 : l.length * 32 ≤ 2 ^ 63 - 1 := hc.2
      have hlen63 : l.length < 2 ^ 63 := by omega
      have hdl : respListDepth l < f := by
        rw [respDepth] at hd
        omega
      have hstep : ∀ x ∈ l, ∀ rest2 : List Char,
          readResp f (encode x ++ rest2) = some (.ok x rest2) := by
        intro x hx rest2
        exact ih x rest2 (cleanList_mem hc.1 hx)
          (lt_of_le_of_lt (respListDepth_mem hx) hdl)
      have hall : ∀ c ∈ '*' :: natDigits l.length, isWs c = false := by
        intro c hcm
        rcases List.mem_cons.mp hcm with rfl | hcm
        · decide
        · exact (natDigits_nonws _ c hcm).1
      have hnlh : ('\n' : Char) ∉ '*' :: natDigits l.length := by
        intro hm
        rcases List.mem_cons.mp hm with hm | hm
        · exact absurd hm (by decide)
        · exact (natDigits_nonws _ '\n' hm).2 rfl
      have hs : encode (.array l) ++ rest
          = ('*' :: natDigits l.length) ++ '\r' :: '\n' :: (encodeList l ++ rest) := by
        rw [show encode (.array l)
            = ('*' :: natDigits l.length) ++ crlf ++ encodeList l from rfl,
          List.append_assoc, List.append_assoc]
        rfl
      have hline : readLine (('*' :: natDigits l.length)
            ++ '\r' :: '\n' :: (encodeList l ++ rest))
          = ('*' :: natDigits l.length, encodeList l ++ rest) := by
        rw [readLine_crlf _ hnlh, trimChars_of_all_nonws hall]
      have hparse : parseI64 (natDigits l.length) = some (l.length : Int) :=
        parseI64_natDigits (by
          show ((l.length : Nat) : Int) ≤ 2 ^ 63 - 1
          omega)
      rw [hs, readResp_succ, hline]
      dsimp only
      rw [if_neg (by decide), if_neg (by decide), if_pos rfl,
        trimChars_of_all_nonws (fun c hcm => (natDigits_nonws _ c hcm).1), hparse]
      dsimp only
      rw [i64AsUsize_ofNat hlen63, capacityOverflow_small hb2]
      rw [if_neg (by decide)]
      rw [show ((l.length : Int)).toNat = l.length from by omega]
      rw [readMany_encodeList f l hstep [] rest]
      simp

/-- C4, counterexample: encode-then-decode on the decoder as written.  A
SimpleString decodes to a SimpleString of the following line (empty at end
of input), Null decodes to a BulkString, an Error value decodes to the
fixed `Unknown error` value, and a BulkString with leading whitespace
comes back trimmed — none of them equivalent to what was encoded. -/
theorem encode_decode_not_equivalent_cex :
    (readResp 1 (encode (.simpleString "OK")) = some (.ok (.simpleString "") []) ∧
      RespData.simpleString "" ≠ .simpleString "OK") ∧
    (readResp 1 (encode .null) = some (.ok (.bulkString "") []) ∧
      RespData.bulkString "" ≠ .null) ∧
    (readResp 1 (encode (.error "syntax error"))
        = some (.ok (.error "Unknown error") []) ∧
      RespData.error "Unknown error" ≠ .error "syntax error") ∧
    (readResp 1 (encode (.bulkString " x")) = some (.ok (.bulkString "x") []) ∧
      RespData.bulkString "x" ≠ .bulkString " x") := by
  refine ⟨⟨by rfl, ?_⟩, ⟨by rfl, ?_⟩, ⟨by rfl, ?_⟩, ⟨by rfl, ?_⟩⟩
  · intro h
    injection h with h2
    exact absurd h2 (by decide)
  · intro h
    exact RespData.noConfusion h
  · intro h
    injection h with h2
    exact absurd h2 (by decide)
  · intro h
    injection h with h2
    exact absurd h2 (by decide)

/-- C4, witness: the amended round trip at a concrete nested array. -/
theorem encode_roundtrip_clean_witness :
    readResp 2 (encode (.array [.integer 5, .bulkString "hi"]) ++ [])
      = some (.ok (.array [.integer 5, .bulkString "hi"]) []) :=
  encode_roundtrip_clean 2 (.array [.integer 5, .bulkString "hi"]) []
    (by decide) (by decide)

end Resp
